import Mathlib

/-
  Verification of the fee-ledger core of a tutoring-institute management
  application (single Flask file, src/app.py).  The relational store is
  embedded as explicit row lists, REAL columns are idealized as exact
  rationals, and the reference time (datetime.now()) is passed explicitly
  as a calendar date, which is faithful because every comparison the code
  performs against now() coincides with day-level date comparison.
-/

namespace SLM

/-- Calendar date (year, month, day).  Python datetime values are modelled at
day granularity: the loop in ensure_fee_records only compares midnight-valued
datetimes against now(), and such a comparison agrees with comparison of the
underlying dates. -/
structure Date where
  year : Nat
  month : Nat
  day : Nat
deriving DecidableEq

/-- The date is a real calendar position: month within 1..12 and day at least 1.
Every date produced by parseDate and every value of datetime.now() satisfies
this. -/
def goodDate (d : Date) : Prop := 1 ≤ d.month ∧ d.month ≤ 12 ∧ 1 ≤ d.day

instance (d : Date) : Decidable (goodDate d) := by unfold goodDate; infer_instance

/-- Datetime comparison at day granularity: lexicographic on (year, month, day). -/
def dateLe (a b : Date) : Bool :=
  decide (a.year < b.year ∨ (a.year = b.year ∧
    (a.month < b.month ∨ (a.month = b.month ∧ a.day ≤ b.day))))

/-- Split a character list at every dash, mirroring how strptime consumes the
literal dashes of the format string %Y-%m-%d. -/
def splitDash : List Char → List (List Char)
  | [] => [[]]
  | c :: cs =>
    if c = '-' then [] :: splitDash cs
    else
      match splitDash cs with
      | [] => [[c]]
      | p :: ps => (c :: p) :: ps

def isDigitCh (c : Char) : Bool := decide ('0' ≤ c) && decide (c ≤ '9')

def digitsVal (cs : List Char) : Nat :=
  cs.foldl (fun n c => 10 * n + (c.toNat - 48)) 0

def isLeap (y : Nat) : Bool := decide (y % 4 = 0 ∧ (y % 100 ≠ 0 ∨ y % 400 = 0))

def daysInMonth (y m : Nat) : Nat :=
  if m = 2 then (if isLeap y then 29 else 28)
  else if m = 4 ∨ m = 6 ∨ m = 9 ∨ m = 11 then 30
  else 31

/-- One %Y-%m-%d candidate: CPython strptime requires exactly four digits for
%Y and one or two digits for %m and %d, the month must be 1..12, the day must
exist in that month, and datetime requires year at least 1. -/
def parseFields (ys ms ds : List Char) : Option Date :=
  if ys.all isDigitCh ∧ ms.all isDigitCh ∧ ds.all isDigitCh ∧
     ys.length = 4 ∧ 1 ≤ ms.length ∧ ms.length ≤ 2 ∧ 1 ≤ ds.length ∧ ds.length ≤ 2 ∧
     1 ≤ digitsVal ys ∧
     1 ≤ digitsVal ms ∧ digitsVal ms ≤ 12 ∧
     1 ≤ digitsVal ds ∧ digitsVal ds ≤ daysInMonth (digitsVal ys) (digitsVal ms)
  then some ⟨digitsVal ys, digitsVal ms, digitsVal ds⟩ else none

/-- datetime.strptime(s, %Y-%m-%d) as an Option-valued parser: none models the
ValueError branch swallowed by the bare except of ensure_fee_records. -/
def parseDate (s : String) : Option Date :=
  match splitDash s.data with
  | [ys, ms, ds] => parseFields ys ms ds
  | _ => none

/-- One row of the students table.  Descriptive columns that no specified
operation reads (father name, class, mobiles, photo path and so on) are
omitted; REAL columns are exact rationals; a NULL or absent admission_date is
modelled as the empty string, matching the falsiness test of the source. -/
structure Student where
  id : Nat
  admission_number : String
  name : String
  fee_per_month : Rat
  discount : Rat
  admission_date : String
deriving DecidableEq

/-- One row of the fees table; the schema declares UNIQUE(student_id, month,
year).  payment_date and payment_mode are NULLable TEXT columns: none models
SQL NULL, some s a stored string (possibly empty, as add_fee_record stores). -/
structure FeeRecord where
  id : Nat
  student_id : Nat
  month : Nat
  year : Nat
  fee_amount : Rat
  is_paid : Bool
  payment_date : Option String
  payment_mode : Option String
  remarks : Option String
deriving DecidableEq

/-- One row of manager_sessions; columns the specified operations never read
are omitted. -/
structure SessionRow where
  id : Nat
  session_id : String
  is_active : Bool
deriving DecidableEq

/-- The persistent store: the three row sets plus the SERIAL sequences (the
next value each sequence would hand out). -/
structure DB where
  students : List Student
  fees : List FeeRecord
  sessions : List SessionRow
  nextStudentId : Nat
  nextFeeId : Nat
  nextSessionId : Nat
deriving DecidableEq

def emptyDB : DB := ⟨[], [], [], 1, 1, 1⟩

def feeKeyMatch (sid m y : Nat) (r : FeeRecord) : Bool :=
  r.student_id == sid && r.month == m && r.year == y

/-- SELECT id FROM fees WHERE student_id = .. AND month = .. AND year = ..,
read as an existence test (the source only checks fetchone for truthiness). -/
def feeExists (db : DB) (sid m y : Nat) : Bool := db.fees.any (feeKeyMatch sid m y)

/-- How many stored fee rows carry the given (student, month, year) key. -/
def countFeeFor (db : DB) (sid m y : Nat) : Nat :=
  (db.fees.filter (feeKeyMatch sid m y)).length

/-- INSERT INTO fees (student_id, month, year, fee_amount, is_paid)
VALUES (.., .., .., .., 0): a fresh row with the next SERIAL id, unpaid, and
no payment metadata. -/
def insertFee (sid m y : Nat) (amt : Rat) (db : DB) : DB :=
  { db with
    fees := db.fees ++ [{ id := db.nextFeeId, student_id := sid, month := m, year := y,
                          fee_amount := amt, is_paid := false,
                          payment_date := none, payment_mode := none, remarks := none }]
    nextFeeId := db.nextFeeId + 1 }

/-- temp_dt.replace(day=1) + relativedelta(months=1): the first day of the
following calendar month. -/
def firstOfNextMonth (d : Date) : Date :=
  if d.month = 12 then ⟨d.year + 1, 1, 1⟩ else ⟨d.year, d.month + 1, 1⟩

/-- Linearized month number, 12 * year + month; measures the while loop. -/
def monthIdx (d : Date) : Nat := 12 * d.year + d.month

/-- The (month, year) pairs visited by the while loop of ensure_fee_records:
start at the full admission date and step to the first day of each following
month while the stepped date is at most the reference date.  fuel bounds the
iteration count; feeMonths below supplies enough fuel for the loop to run to
completion. -/
def feeMonthsAux : Nat → Date → Date → List (Nat × Nat)
  | 0, _, _ => []
  | fuel + 1, temp, asOf =>
    if dateLe temp asOf then
      (temp.month, temp.year) :: feeMonthsAux fuel (firstOfNextMonth temp) asOf
    else []

def feeMonths (admission asOf : Date) : List (Nat × Nat) :=
  feeMonthsAux (monthIdx asOf + 1 - monthIdx admission) admission asOf

/-- The check-then-insert body of the loop, replayed over the visited months:
for each (month, year) pair, insert a fresh unpaid record unless a row with
that key already exists. -/
def insertMissing (sid : Nat) (net : Rat) : List (Nat × Nat) → DB → DB
  | [], db => db
  | (m, y) :: rest, db =>
    insertMissing sid net rest (if feeExists db sid m y then db else insertFee sid m y net db)

/-- def ensure_fee_records(student_id, admission_date, fee_per_month,
discount=0.0), src/app.py lines 158 to 192.  asOf stands for datetime.now().
Foreign-key enforcement is elided here: every caller passes the id of an
existing student, and on a violation the real function would abort before its
single commit, leaving the store unchanged. -/
def ensure_fee_records (student_id : Nat) (admission_date : String)
    (fee_per_month discount : Rat) (asOf : Date) (db : DB) : DB :=
  if admission_date = "" then db
  else
    match parseDate admission_date with
    | none => db
    | some admission_dt =>
      let net_fee := fee_per_month - discount
      insertMissing student_id net_fee (feeMonths admission_dt asOf) db

/-- SELECT id, is_paid FROM fees WHERE student_id AND month AND year,
fetchone: the first stored row carrying the key. -/
def recordFor (db : DB) (sid m y : Nat) : Option FeeRecord :=
  db.fees.find? (feeKeyMatch sid m y)

/-- The UPDATE that toggle_fee_status applies to the selected row: flip
is_paid; stamp payment_date = today and payment_mode = Cash when turning
paid, set both to NULL when turning unpaid. -/
def toggledRecord (today : String) (r : FeeRecord) : FeeRecord :=
  { r with is_paid := !r.is_paid,
           payment_date := if r.is_paid then none else some today,
           payment_mode := if r.is_paid then none else some "Cash" }

/-- def toggle_fee_status(student_id, month, year), src/app.py lines 816 to
845: select the first row matching the tuple; if present, UPDATE it by id and
flash a success message; if absent, do nothing and flash nothing.  today
stands for datetime.now() formatted %Y-%m-%d.  The second component is the
flash message, none when no message is emitted. -/
def toggle_fee_status (sid m y : Nat) (today : String) (db : DB) : DB × Option String :=
  match recordFor db sid m y with
  | none => (db, none)
  | some r =>
    ({ db with fees := db.fees.map (fun q => if q.id == r.id then toggledRecord today q else q) },
     some (if r.is_paid then "Fee marked as unpaid!" else "Fee marked as paid!"))

/-- def add_fee_record(student_id), src/app.py lines 750 to 790: upsert on the
(student_id, month, year) tuple.  If a row exists, UPDATE its mutable fields
by id (student_id, month and year are not touched); otherwise INSERT a new
row.  Payment metadata arrives as form strings and is stored verbatim. -/
def add_fee_record (sid m y : Nat) (fee_amount : Rat) (is_paid : Bool)
    (payment_date payment_mode remarks : String) (db : DB) : DB :=
  match recordFor db sid m y with
  | some r =>
    { db with fees := db.fees.map (fun q =>
        if q.id == r.id then
          { q with fee_amount := fee_amount, is_paid := is_paid,
                   payment_date := some payment_date, payment_mode := some payment_mode,
                   remarks := some remarks }
        else q) }
  | none =>
    { db with
      fees := db.fees ++ [{ id := db.nextFeeId, student_id := sid, month := m, year := y,
                            fee_amount := fee_amount, is_paid := is_paid,
                            payment_date := some payment_date,
                            payment_mode := some payment_mode, remarks := some remarks }]
      nextFeeId := db.nextFeeId + 1 }

/-- def delete_fee_record(fee_id), src/app.py lines 792 to 814:
DELETE FROM fees WHERE id = fee_id. -/
def delete_fee_record (fid : Nat) (db : DB) : DB :=
  { db with fees := db.fees.filter (fun r => !(r.id == fid)) }

/-- def delete_student(student_id), src/app.py lines 673 to 693: DELETE FROM
students WHERE id; the fee rows follow via ON DELETE CASCADE. -/
def delete_student (sid : Nat) (db : DB) : DB :=
  { db with students := db.students.filter (fun s => !(s.id == sid)),
            fees := db.fees.filter (fun r => !(r.student_id == sid)) }

def monthNames : List String :=
  ["", "January", "February", "March", "April", "May", "June",
   "July", "August", "September", "October", "November", "December"]

/-- months[record month], list indexing as in the source; an out-of-range
month (which would raise IndexError in Python) falls back to the empty name. -/
def monthName (m : Nat) : String := monthNames.getD m ""

/-- Fixed two-decimal rendering of an amount, idealizing the float formatting
of the f-string (:.2f) over exact rationals: round at the second decimal.
The rounded value in cents is the floor of q * 100 + 1 / 2, computed on the
reduced numerator and denominator by floor division. -/
def fmt2 (q : Rat) : String :=
  let c : Int := Int.fdiv (200 * q.num + (q.den : Int)) (2 * (q.den : Int))
  let sign := if c < 0 then "-" else ""
  let a := c.natAbs
  sign ++ toString (a / 100) ++ "." ++ (if a % 100 < 10 then "0" else "") ++ toString (a % 100)

/-- One line of the unpaid list: f-string month_name, year, Rs, amount. -/
def renderUnpaidLine (r : FeeRecord) : String :=
  monthName r.month ++ " " ++ toString r.year ++ " - Rs " ++ fmt2 r.fee_amount

/-- ORDER BY year, month ascending. -/
def ymLe (a b : FeeRecord) : Prop :=
  a.year < b.year ∨ (a.year = b.year ∧ a.month ≤ b.month)

instance : DecidableRel ymLe := fun a b => by unfold ymLe; infer_instance

instance : IsTotal FeeRecord ymLe := ⟨by intro a b; unfold ymLe; omega⟩

instance : IsTrans FeeRecord ymLe := ⟨by intro a b c; unfold ymLe; omega⟩

/-- SELECT month, year, fee_amount FROM fees WHERE student_id = .. AND
is_paid = FALSE, before ordering. -/
def unpaidFor (sid : Nat) (db : DB) : List FeeRecord :=
  db.fees.filter (fun r => r.student_id == sid && !r.is_paid)

/-- def get_unpaid_months_details(student_id), src/app.py lines 194 to 220:
query the unpaid rows ordered by (year, month), render each line, and
accumulate total_due.  A pure read: the store is only consulted, never
written (the sort models ORDER BY). -/
def get_unpaid_months_details (sid : Nat) (db : DB) : List String × Rat :=
  let unpaid := List.insertionSort ymLe (unpaidFor sid db)
  (unpaid.map renderUnpaidLine, (unpaid.map (fun r => r.fee_amount)).sum)

/-- The parsed content of data.json inside a backup archive: the three row
sets, restored verbatim with their original ids. -/
structure BackupData where
  students : List Student
  fees : List FeeRecord
  sessions : List SessionRow
deriving DecidableEq

/-- The INSERT INTO students loop of restore_backup, with the schema
constraints (primary key, UNIQUE admission_number) enforced the way the
database enforces them: the first violating row raises, which aborts the
transaction. -/
def insertStudentsTxn : List Student → List Student → Except String (List Student)
  | [], acc => .ok acc
  | s :: rest, acc =>
    if acc.any (fun t => t.id == s.id) then .error "duplicate student id"
    else if acc.any (fun t => t.admission_number == s.admission_number) then
      .error "duplicate admission number"
    else insertStudentsTxn rest (acc ++ [s])

/-- The INSERT INTO fees loop of restore_backup, enforcing the primary key,
UNIQUE(student_id, month, year) and the foreign key to students. -/
def insertFeesTxn : List FeeRecord → List Student → List FeeRecord → Except String (List FeeRecord)
  | [], _, acc => .ok acc
  | f :: rest, studs, acc =>
    if acc.any (fun g => g.id == f.id) then .error "duplicate fee id"
    else if acc.any (feeKeyMatch f.student_id f.month f.year) then
      .error "duplicate fee tuple"
    else if !studs.any (fun s => s.id == f.student_id) then .error "unknown student"
    else insertFeesTxn rest studs (acc ++ [f])

/-- The INSERT INTO manager_sessions loop of restore_backup, enforcing the
primary key and UNIQUE session_id. -/
def insertSessionsTxn : List SessionRow → List SessionRow → Except String (List SessionRow)
  | [], acc => .ok acc
  | s :: rest, acc =>
    if acc.any (fun t => t.id == s.id) then .error "duplicate session id"
    else if acc.any (fun t => t.session_id == s.session_id) then .error "duplicate session key"
    else insertSessionsTxn rest (acc ++ [s])

/-- setval(seq, COALESCE(MAX(id), 1)) followed by the next nextval. -/
def maxIdPlus (ids : List Nat) : Nat := (ids.foldr max 1) + 1

/-- The single database transaction of restore_backup: DELETE FROM fees,
students and manager_sessions (so every insert starts from empty tables),
bulk-insert the document rows preserving ids, and realign the sequences.
The function is the transaction body; an error models an exception raised
before the one commit, in which case nothing persists. -/
def restoreTxn (bd : BackupData) : Except String DB :=
  match insertStudentsTxn bd.students [] with
  | .error e => .error e
  | .ok studs =>
    match insertFeesTxn bd.fees studs [] with
    | .error e => .error e
    | .ok fees =>
      match insertSessionsTxn bd.sessions [] with
      | .error e => .error e
      | .ok sess =>
        .ok { students := studs, fees := fees, sessions := sess,
              nextStudentId := maxIdPlus (studs.map (fun s => s.id)),
              nextFeeId := maxIdPlus (fees.map (fun f => f.id)),
              nextSessionId := maxIdPlus (sess.map (fun s => s.id)) }

/-- def restore_backup(), src/app.py lines 1903 to 2017.  The first argument
is the outcome of everything that happens before the database is touched
(saving the upload, unzipping, locating data.json, json.load): the source
raises and reports an error for a missing upload, a file that is not a zip, a
corrupt archive, a missing data.json or unparsable JSON, all before any
DELETE runs.  The second argument is the outcome of the filesystem work that
runs after conn.commit() inside the same try block (copying the uploads and
logo trees back into place and removing the temporary directory, src/app.py
lines 1997 to 2009): an exception there is caught by the same handler and
reported with the error flash even though the transaction has already
committed.  The Bool result distinguishes the success flash from the error
flash.  An exception before the single commit means nothing persists and the
caller observes the original store; an exception after it leaves the
restored row sets in place while still reporting an error. -/
def restore_backup (arch : Except String BackupData) (assets : Except String Unit) (db : DB) :
    DB × Bool :=
  match arch with
  | .error _ => (db, false)
  | .ok bd =>
    match restoreTxn bd with
    | .error _ => (db, false)
    | .ok db2 =>
      match assets with
      | .error _ => (db2, false)
      | .ok _ => (db2, true)

/-- Two fee rows do not collide on the (student, month, year) key. -/
def keyDiff (a b : FeeRecord) : Prop :=
  ¬(a.student_id = b.student_id ∧ a.month = b.month ∧ a.year = b.year)

instance (a b : FeeRecord) : Decidable (keyDiff a b) := by unfold keyDiff; infer_instance

/-- At most one fee row per (student, month, year): the UNIQUE(student_id,
month, year) invariant of the schema, read on the stored list. -/
def Uniq (db : DB) : Prop := db.fees.Pairwise keyDiff

/-- Fee primary keys are pairwise distinct (SERIAL primary key). -/
def idsNodup (db : DB) : Prop := (db.fees.map (fun r => r.id)).Nodup

instance (db : DB) : Decidable (Uniq db) := by unfold Uniq; infer_instance

instance (db : DB) : Decidable (idsNodup db) := by unfold idsNodup; infer_instance

/-- The states reachable from the freshly initialized store through the
modelled operations. -/
inductive Reachable : DB → Prop
  | init : Reachable emptyDB
  | ensure (sid : Nat) (s : String) (fpm disc : Rat) (asOf : Date) {db : DB} :
      Reachable db → Reachable (ensure_fee_records sid s fpm disc asOf db)
  | toggle (sid m y : Nat) (today : String) {db : DB} :
      Reachable db → Reachable (toggle_fee_status sid m y today db).1
  | addFee (sid m y : Nat) (amt : Rat) (paid : Bool) (pd pm rem : String) {db : DB} :
      Reachable db → Reachable (add_fee_record sid m y amt paid pd pm rem db)
  | delFee (fid : Nat) {db : DB} : Reachable db → Reachable (delete_fee_record fid db)
  | delStudent (sid : Nat) {db : DB} : Reachable db → Reachable (delete_student sid db)
  | restore (arch : Except String BackupData) (assets : Except String Unit) {db : DB} :
      Reachable db → Reachable (restore_backup arch assets db).1

/-- Modelled from the claim text, not from the source: the calendar months
from the admission month (the admission date truncated to the first of its
month) through the month of asOf, inclusive. -/
def specMonthInRange (ad asOf : Date) (m y : Nat) : Bool :=
  decide (1 ≤ m ∧ m ≤ 12 ∧ monthIdx ad ≤ 12 * y + m ∧ 12 * y + m ≤ monthIdx asOf)

/-- The (month, year) pair addressed by a linear month number. -/
def idxToMY (i : Nat) : Nat × Nat := ((i - 1) % 12 + 1, (i - 1) / 12)

end SLM

namespace SLM

theorem dateLe_iff {a b : Date} : dateLe a b = true ↔
    (a.year < b.year ∨ (a.year = b.year ∧
      (a.month < b.month ∨ (a.month = b.month ∧ a.day ≤ b.day)))) := by
  simp [dateLe]

theorem dateLe_trans {a b c : Date} (h1 : dateLe a b = true) (h2 : dateLe b c = true) :
    dateLe a c = true := by
  rw [dateLe_iff] at h1 h2 ⊢; omega

theorem monthIdx_le_of_dateLe {a b : Date} (ha1 : 1 ≤ a.month) (ha2 : a.month ≤ 12)
    (hb1 : 1 ≤ b.month) (hb2 : b.month ≤ 12) (h : dateLe a b = true) :
    monthIdx a ≤ monthIdx b := by
  rw [dateLe_iff] at h; unfold monthIdx; omega

theorem goodDate_firstOfNextMonth {d : Date} (h : goodDate d) :
    goodDate (firstOfNextMonth d) := by
  obtain ⟨h1, h2, h3⟩ := h
  unfold firstOfNextMonth goodDate
  split <;> simp <;> omega

theorem day_firstOfNextMonth (d : Date) : (firstOfNextMonth d).day = 1 := by
  unfold firstOfNextMonth; split <;> rfl

theorem monthIdx_firstOfNextMonth {d : Date} (h1 : 1 ≤ d.month) (h2 : d.month ≤ 12) :
    monthIdx (firstOfNextMonth d) = monthIdx d + 1 := by
  unfold firstOfNextMonth monthIdx
  split <;> simp <;> omega

theorem dateLe_day1_iff {a b : Date} (had : a.day = 1) (ham1 : 1 ≤ a.month)
    (ham2 : a.month ≤ 12) (hb : goodDate b) :
    dateLe a b = true ↔ monthIdx a ≤ monthIdx b := by
  obtain ⟨h1, h2, h3⟩ := hb
  rw [dateLe_iff]; unfold monthIdx; omega

theorem idxToMY_monthIdx {d : Date} (h1 : 1 ≤ d.month) (h2 : d.month ≤ 12) :
    idxToMY (monthIdx d) = (d.month, d.year) := by
  unfold idxToMY monthIdx
  rw [Prod.mk.injEq]
  constructor <;> omega

theorem feeMonthsAux_eq (asOf : Date) (hb : goodDate asOf) (fuel : Nat) :
    ∀ temp, goodDate temp → monthIdx asOf + 1 - monthIdx temp ≤ fuel →
      feeMonthsAux fuel temp asOf =
        if dateLe temp asOf = true then
          (List.range' (monthIdx temp) (monthIdx asOf + 1 - monthIdx temp)).map idxToMY
        else [] := by
  induction fuel with
  | zero =>
    intro temp ht hfuel
    have h0 : monthIdx asOf + 1 - monthIdx temp = 0 := by omega
    simp [feeMonthsAux, h0]
  | succ fuel ih =>
    intro temp ht hfuel
    by_cases hle : dateLe temp asOf = true
    · have hidx : monthIdx temp ≤ monthIdx asOf :=
        monthIdx_le_of_dateLe ht.1 ht.2.1 hb.1 hb.2.1 hle
      have hgn : goodDate (firstOfNextMonth temp) := goodDate_firstOfNextMonth ht
      have hin : monthIdx (firstOfNextMonth temp) = monthIdx temp + 1 :=
        monthIdx_firstOfNextMonth ht.1 ht.2.1
      have ihh := ih (firstOfNextMonth temp) hgn (by omega)
      rw [hin] at ihh
      simp only [feeMonthsAux, hle, if_true, ihh]
      by_cases h2 : monthIdx temp + 1 ≤ monthIdx asOf
      · have hfle : dateLe (firstOfNextMonth temp) asOf = true := by
          rw [dateLe_day1_iff (day_firstOfNextMonth temp) hgn.1 hgn.2.1 hb, hin]; exact h2
        rw [if_pos hfle]
        have e1 : monthIdx asOf + 1 - monthIdx temp = (monthIdx asOf - monthIdx temp) + 1 := by
          omega
        rw [e1, List.range'_succ, List.map_cons, idxToMY_monthIdx ht.1 ht.2.1]
        have e2 : monthIdx asOf + 1 - (monthIdx temp + 1) = monthIdx asOf - monthIdx temp := by
          omega
        rw [e2]
      · have hfle : ¬ dateLe (firstOfNextMonth temp) asOf = true := by
          rw [dateLe_day1_iff (day_firstOfNextMonth temp) hgn.1 hgn.2.1 hb, hin]; omega
        rw [if_neg hfle]
        have e1 : monthIdx asOf + 1 - monthIdx temp = 1 := by omega
        rw [e1, List.range'_one, List.map_singleton, idxToMY_monthIdx ht.1 ht.2.1]
    · simp [feeMonthsAux, hle]

theorem feeMonths_eq {ad asOf : Date} (ha : goodDate ad) (hb : goodDate asOf) :
    feeMonths ad asOf =
      if dateLe ad asOf = true then
        (List.range' (monthIdx ad) (monthIdx asOf + 1 - monthIdx ad)).map idxToMY
      else [] :=
  feeMonthsAux_eq asOf hb _ ad ha (Nat.le_refl _)

theorem mem_feeMonths {ad asOf : Date} (ha : goodDate ad) (hb : goodDate asOf) {m y : Nat} :
    (m, y) ∈ feeMonths ad asOf ↔
      (dateLe ad asOf = true ∧ 1 ≤ m ∧ m ≤ 12 ∧
        monthIdx ad ≤ 12 * y + m ∧ 12 * y + m ≤ monthIdx asOf) := by
  rw [feeMonths_eq ha hb]
  by_cases hle : dateLe ad asOf = true
  · have hadm : 1 ≤ monthIdx ad := by unfold monthIdx; have := ha.1; omega
    simp only [hle, if_true, List.mem_map, List.mem_range', true_and]
    constructor
    · rintro ⟨i, ⟨k, hk, hik⟩, hmy⟩
      unfold idxToMY at hmy
      rw [Prod.mk.injEq] at hmy
      obtain ⟨hm, hy⟩ := hmy
      unfold monthIdx at *
      omega
    · rintro ⟨hm1, hm2, h4, h5⟩
      refine ⟨12 * y + m, ⟨12 * y + m - monthIdx ad, by omega, by omega⟩, ?_⟩
      unfold idxToMY
      rw [Prod.mk.injEq]
      constructor <;> omega
  · simp [hle]

theorem feeMonths_split {ad a1 a2 : Date} (ha : goodDate ad) (h1 : goodDate a1)
    (h2 : goodDate a2) (hle : dateLe a1 a2 = true) :
    ∃ rest, feeMonths ad a2 = feeMonths ad a1 ++ rest := by
  by_cases hd : dateLe ad a1 = true
  · have hd2 : dateLe ad a2 = true := dateLe_trans hd hle
    have hi : monthIdx a1 ≤ monthIdx a2 :=
      monthIdx_le_of_dateLe h1.1 h1.2.1 h2.1 h2.2.1 hle
    have hia : monthIdx ad ≤ monthIdx a1 :=
      monthIdx_le_of_dateLe ha.1 ha.2.1 h1.1 h1.2.1 hd
    refine ⟨(List.range' (monthIdx a1 + 1) (monthIdx a2 - monthIdx a1)).map idxToMY, ?_⟩
    rw [feeMonths_eq ha h1, feeMonths_eq ha h2, if_pos hd, if_pos hd2, ← List.map_append]
    congr 1
    have happ := List.range'_append (monthIdx ad) (monthIdx a1 + 1 - monthIdx ad)
      (monthIdx a2 - monthIdx a1) 1
    rw [show monthIdx ad + 1 * (monthIdx a1 + 1 - monthIdx ad) = monthIdx a1 + 1 by omega] at happ
    rw [show monthIdx a2 - monthIdx a1 + (monthIdx a1 + 1 - monthIdx ad)
          = monthIdx a2 + 1 - monthIdx ad by omega] at happ
    exact happ.symm
  · exact ⟨feeMonths ad a2, by rw [feeMonths_eq ha h1, if_neg hd]; simp⟩

end SLM

namespace SLM

theorem any_iff_filter_pos {α : Type} (p : α → Bool) (l : List α) :
    l.any p = true ↔ 1 ≤ (l.filter p).length := by
  induction l with
  | nil => simp
  | cons x xs ih => by_cases h : p x <;> simp [h, ih, List.filter_cons]

theorem feeExists_iff_count {db : DB} {sid m y : Nat} :
    feeExists db sid m y = true ↔ 1 ≤ countFeeFor db sid m y :=
  any_iff_filter_pos _ _

theorem countFeeFor_insertFee (sid a b : Nat) (net : Rat) (db : DB) (m y : Nat) :
    countFeeFor (insertFee sid a b net db) sid m y =
      if a = m ∧ b = y then countFeeFor db sid m y + 1 else countFeeFor db sid m y := by
  unfold countFeeFor insertFee
  rw [List.filter_append, List.length_append]
  by_cases h : a = m ∧ b = y
  · obtain ⟨e1, e2⟩ := h
    subst e1; subst e2
    simp [feeKeyMatch, List.filter_cons]
  · rw [if_neg h]
    have hb : feeKeyMatch sid m y
        { id := db.nextFeeId, student_id := sid, month := a, year := b,
          fee_amount := net, is_paid := false,
          payment_date := none, payment_mode := none, remarks := none } = false := by
      rw [Bool.eq_false_iff]
      intro hc
      simp only [feeKeyMatch, Bool.and_eq_true, beq_iff_eq] at hc
      exact h ⟨hc.1.2, hc.2⟩
    simp [List.filter_cons, hb]

theorem countFeeFor_insertMissing (sid : Nat) (net : Rat) (L : List (Nat × Nat)) :
    ∀ db m y, countFeeFor (insertMissing sid net L db) sid m y =
      if (m, y) ∈ L then max (countFeeFor db sid m y) 1 else countFeeFor db sid m y := by
  induction L with
  | nil => intro db m y; simp [insertMissing]
  | cons p rest ih =>
    intro db m y
    obtain ⟨a, b⟩ := p
    simp only [insertMissing]
    by_cases hex : feeExists db sid a b = true
    · rw [if_pos hex, ih]
      by_cases hmem : (m, y) ∈ rest
      · simp [hmem, List.mem_cons]
      · by_cases heq : (m, y) = (a, b)
        · have hc : 1 ≤ countFeeFor db sid m y := by
            rw [Prod.mk.injEq] at heq
            obtain ⟨e1, e2⟩ := heq
            subst e1; subst e2
            exact feeExists_iff_count.mp hex
          rw [if_neg hmem, if_pos (List.mem_cons.mpr (Or.inl heq))]
          omega
        · simp [hmem, heq, List.mem_cons]
    · rw [if_neg hex, ih]
      have hc0 : countFeeFor db sid a b = 0 := by
        by_contra hne
        exact hex (feeExists_iff_count.mpr (by omega))
      by_cases heq : (m, y) = (a, b)
      · rw [Prod.mk.injEq] at heq
        obtain ⟨e1, e2⟩ := heq
        subst e1; subst e2
        rw [countFeeFor_insertFee]
        simp only [if_pos (And.intro rfl rfl), hc0, List.mem_cons]
        by_cases hmem : (m, y) ∈ rest <;> simp [hmem]
      · rw [countFeeFor_insertFee]
        have hne : ¬(a = m ∧ b = y) := by
          rw [Prod.mk.injEq] at heq; tauto
        rw [if_neg hne]
        by_cases hmem : (m, y) ∈ rest <;> simp [hmem, heq, List.mem_cons]

end SLM

namespace SLM

theorem feeExists_insertMissing_of_mem {sid : Nat} {net : Rat} {L : List (Nat × Nat)}
    {db : DB} {m y : Nat} (h : (m, y) ∈ L) :
    feeExists (insertMissing sid net L db) sid m y = true := by
  rw [feeExists_iff_count, countFeeFor_insertMissing, if_pos h]
  omega

theorem insertMissing_noop (sid : Nat) (net : Rat) (L : List (Nat × Nat)) :
    ∀ db, (∀ p ∈ L, feeExists db sid p.1 p.2 = true) → insertMissing sid net L db = db := by
  induction L with
  | nil => intro db _; rfl
  | cons p rest ih =>
    intro db h
    obtain ⟨a, b⟩ := p
    simp only [insertMissing]
    rw [if_pos (h (a, b) (List.mem_cons_self _ _))]
    exact ih db (fun q hq => h q (List.mem_cons_of_mem _ hq))

theorem insertMissing_append (sid : Nat) (net : Rat) (L1 L2 : List (Nat × Nat)) :
    ∀ db, insertMissing sid net (L1 ++ L2) db
      = insertMissing sid net L2 (insertMissing sid net L1 db) := by
  induction L1 with
  | nil => intro db; rfl
  | cons p rest ih =>
    intro db
    obtain ⟨a, b⟩ := p
    simp only [List.cons_append, insertMissing]
    exact ih _

theorem insertMissing_twice (sid : Nat) (net : Rat) (L : List (Nat × Nat)) (db : DB) :
    insertMissing sid net L (insertMissing sid net L db) = insertMissing sid net L db :=
  insertMissing_noop sid net L _ (fun p hp => feeExists_insertMissing_of_mem hp)

theorem insertMissing_extends (sid : Nat) (net : Rat) (L : List (Nat × Nat)) :
    ∀ db, ∃ new,
      (insertMissing sid net L db).fees = db.fees ++ new ∧
      (∀ r ∈ new, r.student_id = sid ∧ r.fee_amount = net ∧ r.is_paid = false ∧
        r.payment_date = none ∧ r.payment_mode = none ∧ r.remarks = none ∧
        (r.month, r.year) ∈ L) ∧
      (insertMissing sid net L db).students = db.students ∧
      (insertMissing sid net L db).sessions = db.sessions ∧
      (insertMissing sid net L db).nextStudentId = db.nextStudentId ∧
      (insertMissing sid net L db).nextSessionId = db.nextSessionId := by
  induction L with
  | nil =>
    intro db
    exact ⟨[], by simp [insertMissing], by simp, rfl, rfl, rfl, rfl⟩
  | cons p rest ih =>
    intro db
    obtain ⟨a, b⟩ := p
    simp only [insertMissing]
    by_cases hex : feeExists db sid a b = true
    · rw [if_pos hex]
      obtain ⟨new, h1, h2, h3, h4, h5, h6⟩ := ih db
      refine ⟨new, h1, fun r hr => ?_, h3, h4, h5, h6⟩
      obtain ⟨k1, k2, k3, k4, k5, k6, k7⟩ := h2 r hr
      exact ⟨k1, k2, k3, k4, k5, k6, List.mem_cons_of_mem _ k7⟩
    · rw [if_neg hex]
      obtain ⟨new, h1, h2, h3, h4, h5, h6⟩ := ih (insertFee sid a b net db)
      refine ⟨{ id := db.nextFeeId, student_id := sid, month := a, year := b,
                fee_amount := net, is_paid := false, payment_date := none,
                payment_mode := none, remarks := none } :: new, ?_, ?_, ?_, ?_, ?_, ?_⟩
      · rw [h1]; simp [insertFee]
      · intro r hr
        rcases List.mem_cons.mp hr with h | h
        · subst h; exact ⟨rfl, rfl, rfl, rfl, rfl, rfl, List.mem_cons_self _ _⟩
        · obtain ⟨k1, k2, k3, k4, k5, k6, k7⟩ := h2 r h
          exact ⟨k1, k2, k3, k4, k5, k6, List.mem_cons_of_mem _ k7⟩
      · rw [h3]; rfl
      · rw [h4]; rfl
      · rw [h5]; rfl
      · rw [h6]; rfl

theorem parseFields_goodDate {ys ms ds : List Char} {d : Date}
    (h : parseFields ys ms ds = some d) : goodDate d := by
  unfold parseFields at h
  split at h
  · rename_i hcond
    obtain ⟨_, _, _, _, _, _, _, _, _, hm1, hm2, hd1, _⟩ := hcond
    cases h
    exact ⟨hm1, hm2, hd1⟩
  · cases h

theorem parseDate_goodDate {s : String} {d : Date} (h : parseDate s = some d) : goodDate d := by
  unfold parseDate at h
  split at h
  · exact parseFields_goodDate h
  · cases h

theorem parseDate_empty : parseDate "" = none := by decide

theorem parseDate_ne_empty {s : String} {d : Date} (h : parseDate s = some d) : s ≠ "" := by
  intro he
  rw [he, parseDate_empty] at h
  cases h

theorem ensure_eq_insertMissing {sid : Nat} {s : String} {fpm disc : Rat} {asOf : Date}
    {ad : Date} (hparse : parseDate s = some ad) (db : DB) :
    ensure_fee_records sid s fpm disc asOf db
      = insertMissing sid (fpm - disc) (feeMonths ad asOf) db := by
  unfold ensure_fee_records
  rw [if_neg (parseDate_ne_empty hparse), hparse]

theorem ensure_noparse {sid : Nat} {s : String} {fpm disc : Rat} {asOf : Date}
    (hparse : parseDate s = none) (db : DB) :
    ensure_fee_records sid s fpm disc asOf db = db := by
  unfold ensure_fee_records
  by_cases he : s = ""
  · rw [if_pos he]
  · rw [if_neg he, hparse]

end SLM

namespace SLM

theorem ensure_extends (sid : Nat) (s : String) (fpm disc : Rat) (asOf : Date) (db : DB) :
    ∃ new, (ensure_fee_records sid s fpm disc asOf db).fees = db.fees ++ new ∧
      (∀ r ∈ new, r.student_id = sid ∧ r.fee_amount = fpm - disc ∧ r.is_paid = false ∧
        r.payment_date = none ∧ r.payment_mode = none ∧ r.remarks = none) ∧
      (ensure_fee_records sid s fpm disc asOf db).students = db.students ∧
      (ensure_fee_records sid s fpm disc asOf db).sessions = db.sessions := by
  cases hp : parseDate s with
  | none =>
    rw [ensure_noparse hp]
    exact ⟨[], by simp, by simp, rfl, rfl⟩
  | some ad =>
    rw [ensure_eq_insertMissing hp]
    obtain ⟨new, h1, h2, h3, h4, _, _⟩ := insertMissing_extends sid (fpm - disc) (feeMonths ad asOf) db
    refine ⟨new, h1, fun r hr => ?_, h3, h4⟩
    obtain ⟨k1, k2, k3, k4, k5, k6, _⟩ := h2 r hr
    exact ⟨k1, k2, k3, k4, k5, k6⟩

/-- Claim C1 counterexample.  The claim asserts that after Reconcile the record set
contains exactly one record for every calendar month from the admission month
through the month of as_of.  Take admission_date 2024-01-15 and as_of
2024-01-10: January 2024 lies in the claimed range (it is both the admission
month and the month of as_of), yet the loop starts at the full admission date,
2024-01-15 exceeds as_of, and no record at all is created. -/
theorem c1_monotonic_completeness_cex :
    parseDate "2024-01-15" = some ⟨2024, 1, 15⟩ ∧
    specMonthInRange ⟨2024, 1, 15⟩ ⟨2024, 1, 10⟩ 1 2024 = true ∧
    countFeeFor (ensure_fee_records 1 "2024-01-15" 1000 100 ⟨2024, 1, 10⟩ emptyDB) 1 1 2024 = 0 :=
  ⟨by decide, by decide, by decide⟩

/-- Claim C1, amended: for a student with no pre-existing fee records and a parsable
admission date, provided the admission date itself (not merely its month) is
at most as_of, the record set after Reconcile has exactly one record per
calendar month from the admission month through the month of as_of and none
outside; when the admission date exceeds as_of no record is created at all
(so in particular the admission month gets no record when as_of falls earlier
in that same month). -/
theorem c1_monotonic_completeness (sid : Nat) (s : String) (ad asOf : Date)
    (fpm disc : Rat) (db : DB)
    (hparse : parseDate s = some ad) (hAsOf : goodDate asOf)
    (hempty : ∀ r ∈ db.fees, r.student_id ≠ sid) (m y : Nat) :
    countFeeFor (ensure_fee_records sid s fpm disc asOf db) sid m y =
      if dateLe ad asOf = true ∧ specMonthInRange ad asOf m y = true then 1 else 0 := by
  have hgood := parseDate_goodDate hparse
  rw [ensure_eq_insertMissing hparse, countFeeFor_insertMissing]
  have hc0 : countFeeFor db sid m y = 0 := by
    unfold countFeeFor
    rw [List.length_eq_zero]
    refine List.filter_eq_nil_iff.mpr (fun r hr => ?_)
    simp only [feeKeyMatch, Bool.and_eq_true, beq_iff_eq]
    intro hc
    exact hempty r hr hc.1.1
  rw [hc0]
  have hspec : (dateLe ad asOf = true ∧ specMonthInRange ad asOf m y = true)
      ↔ (m, y) ∈ feeMonths ad asOf := by
    rw [mem_feeMonths hgood hAsOf]
    unfold specMonthInRange
    simp only [decide_eq_true_eq]
  by_cases hmem : (m, y) ∈ feeMonths ad asOf
  · rw [if_pos hmem, if_pos (hspec.mpr hmem)]
    decide
  · rw [if_neg hmem, if_neg (fun hc => hmem (hspec.mp hc))]

/-- Claim C1 witness, discharging the hypotheses at the scenario of the spec:
admission 2024-01-15, fee 1000, discount 100, as_of 2024-04-10; the February
2024 record exists exactly once and May 2024 has none. -/
theorem c1_monotonic_completeness_witness :
    countFeeFor (ensure_fee_records 7 "2024-01-15" 1000 100 ⟨2024, 4, 10⟩ emptyDB) 7 2 2024 = 1 ∧
    countFeeFor (ensure_fee_records 7 "2024-01-15" 1000 100 ⟨2024, 4, 10⟩ emptyDB) 7 5 2024 = 0 := by
  constructor
  · have h := c1_monotonic_completeness 7 "2024-01-15" ⟨2024, 1, 15⟩ ⟨2024, 4, 10⟩
      1000 100 emptyDB (by decide) (by decide)
      (by intro r hr; simp [emptyDB] at hr) 2 2024
    rw [if_pos ⟨by decide, by decide⟩] at h
    exact h
  · have h := c1_monotonic_completeness 7 "2024-01-15" ⟨2024, 1, 15⟩ ⟨2024, 4, 10⟩
      1000 100 emptyDB (by decide) (by decide)
      (by intro r hr; simp [emptyDB] at hr) 5 2024
    rw [if_neg (by decide)] at h
    exact h

/-- Claim C2: Reconcile is idempotent, and more generally a second run with the same
or a later as_of reaches the same final state as a single run with the later
as_of (instantiating both reference dates equally gives plain idempotence). -/
theorem c2_idempotence (sid : Nat) (s : String) (fpm disc : Rat) (asOf1 asOf2 : Date) (db : DB)
    (h1 : goodDate asOf1) (h2 : goodDate asOf2) (hle : dateLe asOf1 asOf2 = true) :
    ensure_fee_records sid s fpm disc asOf2 (ensure_fee_records sid s fpm disc asOf1 db)
      = ensure_fee_records sid s fpm disc asOf2 db := by
  cases hp : parseDate s with
  | none => rw [ensure_noparse hp, ensure_noparse hp, ensure_noparse hp]
  | some ad =>
    have hgood := parseDate_goodDate hp
    rw [ensure_eq_insertMissing hp, ensure_eq_insertMissing hp, ensure_eq_insertMissing hp]
    obtain ⟨rest, hsplit⟩ := feeMonths_split hgood h1 h2 hle
    rw [hsplit, insertMissing_append, insertMissing_append, insertMissing_twice]

/-- Claim C2 witness: reconciling to April 2024 after reconciling to February 2024
equals reconciling to April 2024 once. -/
theorem c2_idempotence_witness :
    ensure_fee_records 1 "2024-01-15" 1000 100 ⟨2024, 4, 10⟩
        (ensure_fee_records 1 "2024-01-15" 1000 100 ⟨2024, 2, 5⟩ emptyDB)
      = ensure_fee_records 1 "2024-01-15" 1000 100 ⟨2024, 4, 10⟩ emptyDB :=
  c2_idempotence 1 "2024-01-15" 1000 100 ⟨2024, 2, 5⟩ ⟨2024, 4, 10⟩ emptyDB
    (by decide) (by decide) (by decide)

/-- Claim C3: Reconcile never updates or deletes an existing fee record — whatever
rows were stored before the call, with whatever field values (including a
manually edited fee_amount), reappear unchanged, in place, as the front of
the stored list, and only fresh rows are appended; the student rows are not
mutated.  This holds for every admission date string, every billing
parameter, every as_of and every starting store. -/
theorem c3_nondestructive (sid : Nat) (s : String) (fpm disc : Rat) (asOf : Date) (db : DB) :
    (∃ new, (ensure_fee_records sid s fpm disc asOf db).fees = db.fees ++ new) ∧
    (ensure_fee_records sid s fpm disc asOf db).students = db.students := by
  obtain ⟨new, h1, _, h3, _⟩ := ensure_extends sid s fpm disc asOf db
  exact ⟨⟨new, h1⟩, h3⟩

/-- Claim C5: when the admission date is absent (empty) or fails to parse as a
%Y-%m-%d calendar date, Reconcile returns the store untouched: no records
are created and no other state changes.  The function is total, modelling
that the ValueError is swallowed and no exception escapes. -/
theorem c5_bad_input_noop (sid : Nat) (s : String) (fpm disc : Rat) (asOf : Date) (db : DB)
    (hparse : parseDate s = none) :
    ensure_fee_records sid s fpm disc asOf db = db :=
  ensure_noparse hparse db

/-- Claim C5 witness at the input named by the spec, the string not-a-date. -/
theorem c5_bad_input_noop_witness :
    parseDate "not-a-date" = none ∧
    ensure_fee_records 1 "not-a-date" 1000 0 ⟨2024, 5, 10⟩ emptyDB = emptyDB :=
  ⟨by decide, c5_bad_input_noop 1 "not-a-date" 1000 0 ⟨2024, 5, 10⟩ emptyDB (by decide)⟩

/-- Claim C6: every record created by a Reconcile run carries fee_amount equal to
fee_per_month - discount as passed to that very run, is unpaid and has no
payment metadata; the amount is negative whenever the discount exceeds the
fee (no clamping); and any later Reconcile run — with arbitrarily changed
billing parameters — only appends, leaving every previously created record,
and in particular its amount, untouched. -/
theorem c6_amount_determinism (sid : Nat) (s : String) (fpm disc : Rat) (asOf : Date) (db : DB) :
    ∃ new,
      (ensure_fee_records sid s fpm disc asOf db).fees = db.fees ++ new ∧
      (∀ r ∈ new, r.fee_amount = fpm - disc ∧ r.is_paid = false ∧
        r.payment_date = none ∧ r.payment_mode = none) ∧
      (fpm < disc → ∀ r ∈ new, r.fee_amount < 0) ∧
      (∀ sid2 s2 fpm2 disc2 asOf2, ∃ new2,
        (ensure_fee_records sid2 s2 fpm2 disc2 asOf2
            (ensure_fee_records sid s fpm disc asOf db)).fees
          = (ensure_fee_records sid s fpm disc asOf db).fees ++ new2) := by
  obtain ⟨new, h1, h2, _, _⟩ := ensure_extends sid s fpm disc asOf db
  refine ⟨new, h1, ?_, ?_, ?_⟩
  · intro r hr
    obtain ⟨_, k2, k3, k4, k5, _⟩ := h2 r hr
    exact ⟨k2, k3, k4, k5⟩
  · intro hlt r hr
    obtain ⟨_, k2, _⟩ := h2 r hr
    rw [k2]
    exact sub_neg.mpr hlt
  · intro sid2 s2 fpm2 disc2 asOf2
    obtain ⟨new2, g1, _, _, _⟩ := ensure_extends sid2 s2 fpm2 disc2 asOf2
      (ensure_fee_records sid s fpm disc asOf db)
    exact ⟨new2, g1⟩

end SLM

namespace SLM

theorem find?_split {α : Type} (p : α → Bool) :
    ∀ (l : List α) (r : α), l.find? p = some r →
      ∃ l1 l2, l = l1 ++ r :: l2 ∧ ∀ x ∈ l1, p x = false := by
  intro l
  induction l with
  | nil => intro r h; cases h
  | cons x xs ih =>
    intro r h
    by_cases hx : p x = true
    · rw [List.find?_cons_of_pos _ hx] at h
      cases h
      exact ⟨[], xs, rfl, by simp⟩
    · have hx2 : p x = false := Bool.eq_false_iff.mpr hx
      rw [List.find?_cons_of_neg _ (by simp [hx2])] at h
      obtain ⟨l1, l2, he, hall⟩ := ih r h
      refine ⟨x :: l1, l2, by rw [he]; rfl, ?_⟩
      intro z hz
      rcases List.mem_cons.mp hz with h1 | h1
      · rw [h1]; exact hx2
      · exact hall z h1

theorem find?_app_cons {α : Type} (p : α → Bool) (x : α) :
    ∀ (l1 l2 : List α), (∀ z ∈ l1, p z = false) → p x = true →
      (l1 ++ x :: l2).find? p = some x := by
  intro l1
  induction l1 with
  | nil =>
    intro l2 _ hx
    rw [List.nil_append]
    exact List.find?_cons_of_pos _ hx
  | cons a as ih =>
    intro l2 hall hx
    rw [List.cons_append, List.find?_cons_of_neg _ (by simp [hall a (List.mem_cons_self _ _)])]
    exact ih l2 (fun z hz => hall z (List.mem_cons_of_mem _ hz)) hx

theorem feeKeyMatch_toggledRecord (sid m y : Nat) (today : String) (r : FeeRecord) :
    feeKeyMatch sid m y (toggledRecord today r) = feeKeyMatch sid m y r := rfl

theorem id_toggledRecord (today : String) (r : FeeRecord) :
    (toggledRecord today r).id = r.id := rfl

theorem toggle_found (sid m y : Nat) (today : String) (db : DB) (r : FeeRecord)
    (hids : idsNodup db) (hfind : recordFor db sid m y = some r) :
    ∃ l1 l2, db.fees = l1 ++ r :: l2 ∧
      (∀ x ∈ l1, feeKeyMatch sid m y x = false) ∧
      (toggle_fee_status sid m y today db).1.fees = l1 ++ toggledRecord today r :: l2 ∧
      (toggle_fee_status sid m y today db).2
        = some (if r.is_paid then "Fee marked as unpaid!" else "Fee marked as paid!") ∧
      (toggle_fee_status sid m y today db).1.students = db.students ∧
      (toggle_fee_status sid m y today db).1.sessions = db.sessions ∧
      (toggle_fee_status sid m y today db).1.nextFeeId = db.nextFeeId := by
  obtain ⟨l1, l2, he, hl1⟩ := find?_split _ _ _ hfind
  have hids2 : ((l1 ++ r :: l2).map (fun q => q.id)).Nodup := by
    unfold idsNodup at hids
    rw [he] at hids
    exact hids
  rw [List.map_append, List.map_cons, List.nodup_append] at hids2
  obtain ⟨hn1, hn2, hdisj⟩ := hids2
  have hrid : ∀ q ∈ l1 ++ l2, q.id ≠ r.id := by
    intro q hq
    rcases List.mem_append.mp hq with h1 | h1
    · exact fun hc => hdisj (List.mem_map_of_mem _ h1) (by rw [hc]; exact List.mem_cons_self _ _)
    · have := (List.nodup_cons.mp hn2).1
      exact fun hc => this (by rw [← hc]; exact List.mem_map_of_mem _ h1)
  refine ⟨l1, l2, he, hl1, ?_, ?_, ?_, ?_, ?_⟩
  · simp only [toggle_fee_status, hfind]
    rw [he, List.map_append, List.map_cons]
    have e1 : l1.map (fun q => if q.id == r.id then toggledRecord today q else q) = l1 := by
      have : ∀ q ∈ l1, (if q.id == r.id then toggledRecord today q else q) = id q :=
        fun q hq => by
          rw [if_neg (by simp [hrid q (List.mem_append.mpr (Or.inl hq))])]; rfl
      rw [List.map_congr_left this, List.map_id]
    have e2 : l2.map (fun q => if q.id == r.id then toggledRecord today q else q) = l2 := by
      have : ∀ q ∈ l2, (if q.id == r.id then toggledRecord today q else q) = id q :=
        fun q hq => by
          rw [if_neg (by simp [hrid q (List.mem_append.mpr (Or.inr hq))])]; rfl
      rw [List.map_congr_left this, List.map_id]
    rw [e1, e2, if_pos (by simp)]
  · simp only [toggle_fee_status, hfind]
  · simp only [toggle_fee_status, hfind]
  · simp only [toggle_fee_status, hfind]
  · simp only [toggle_fee_status, hfind]

theorem toggle_notfound (sid m y : Nat) (today : String) (db : DB)
    (hfind : recordFor db sid m y = none) :
    toggle_fee_status sid m y today db = (db, none) := by
  simp only [toggle_fee_status, hfind]

end SLM

namespace SLM

/-- Claim C7 counterexample.  The claim says ToggleStatus on a missing tuple is a
no-op that reports not found.  Toggling (student 1, January 2024) on the
empty store indeed changes nothing and creates nothing, but the source
flashes no message at all in that branch: the emitted message is none, not a
not-found report. -/
theorem c7_toggle_cex :
    toggle_fee_status 1 1 2024 "2026-10-12" emptyDB = (emptyDB, (none : Option String)) := by
  decide

/-- Claim C7, amended: ToggleStatus on the unique record for the tuple flips it —
unpaid to paid with payment_date = today and payment_mode = Cash, paid to
unpaid with both fields cleared to NULL — touching no other record and no
student row, and flashes the corresponding success message; when no record
exists for the tuple it is a silent no-op: nothing is created or changed and
no message (in particular no not-found report) is emitted. -/
theorem c7_toggle_status (sid m y : Nat) (today : String) (db : DB) (hids : idsNodup db) :
    (recordFor db sid m y = none → toggle_fee_status sid m y today db = (db, none)) ∧
    (∀ r, recordFor db sid m y = some r → r.is_paid = false →
      ∃ l1 l2, db.fees = l1 ++ r :: l2 ∧
        (toggle_fee_status sid m y today db).1.fees
          = l1 ++ { r with is_paid := true, payment_date := some today,
                           payment_mode := some "Cash" } :: l2 ∧
        (toggle_fee_status sid m y today db).1.students = db.students ∧
        (toggle_fee_status sid m y today db).2 = some "Fee marked as paid!") ∧
    (∀ r, recordFor db sid m y = some r → r.is_paid = true →
      ∃ l1 l2, db.fees = l1 ++ r :: l2 ∧
        (toggle_fee_status sid m y today db).1.fees
          = l1 ++ { r with is_paid := false, payment_date := none,
                           payment_mode := none } :: l2 ∧
        (toggle_fee_status sid m y today db).1.students = db.students ∧
        (toggle_fee_status sid m y today db).2 = some "Fee marked as unpaid!") := by
  refine ⟨fun hn => toggle_notfound sid m y today db hn, ?_, ?_⟩
  · intro r hfind hpaid
    obtain ⟨l1, l2, he, _, hf, hmsg, hstu, _, _⟩ := toggle_found sid m y today db r hids hfind
    have hrec : toggledRecord today r
        = { r with is_paid := true, payment_date := some today, payment_mode := some "Cash" } := by
      simp [toggledRecord, hpaid]
    rw [hrec] at hf
    rw [hpaid] at hmsg
    exact ⟨l1, l2, he, hf, hstu, by simpa using hmsg⟩
  · intro r hfind hpaid
    obtain ⟨l1, l2, he, _, hf, hmsg, hstu, _, _⟩ := toggle_found sid m y today db r hids hfind
    have hrec : toggledRecord today r
        = { r with is_paid := false, payment_date := none, payment_mode := none } := by
      simp [toggledRecord, hpaid]
    rw [hrec] at hf
    rw [hpaid] at hmsg
    exact ⟨l1, l2, he, hf, hstu, by simpa using hmsg⟩

/-- Claim C7 witness: on a store holding exactly one unpaid record for (student 1,
January 2024), the toggle marks it paid with today as payment_date and Cash
as payment_mode, and flashes the paid message. -/
theorem c7_toggle_status_witness :
    (toggle_fee_status 1 1 2024 "2026-02-01"
        { emptyDB with fees := [⟨5, 1, 1, 2024, 500, false, none, none, none⟩] }).1.fees
      = [⟨5, 1, 1, 2024, 500, true, some "2026-02-01", some "Cash", none⟩] ∧
    (toggle_fee_status 1 1 2024 "2026-02-01"
        { emptyDB with fees := [⟨5, 1, 1, 2024, 500, false, none, none, none⟩] }).2
      = some "Fee marked as paid!" := by
  have h := (c7_toggle_status 1 1 2024 "2026-02-01"
      { emptyDB with fees := [⟨5, 1, 1, 2024, 500, false, none, none, none⟩] }
      (by decide)).2.1 ⟨5, 1, 1, 2024, 500, false, none, none, none⟩ rfl rfl
  obtain ⟨l1, l2, he, hf, _, hmsg⟩ := h
  have hlen := congrArg List.length he
  simp only [List.length_append, List.length_cons, List.length_nil] at hlen
  have hl1 : l1 = [] := List.eq_nil_of_length_eq_zero (by omega)
  have hl2 : l2 = [] := List.eq_nil_of_length_eq_zero (by omega)
  subst hl1; subst hl2
  exact ⟨by simpa using hf, hmsg⟩

/-- Claim C10: double-toggling a paid record (payment_date D, payment_mode M)
leaves it paid, but stamped with the second toggle date and the Cash default:
the original metadata are not restored, so the double toggle is not the
identity on payment metadata whenever D differs from the second toggle date
or M differs from Cash. -/
theorem c10_double_toggle (sid m y : Nat) (t1 t2 D M : String) (db : DB) (r : FeeRecord)
    (hids : idsNodup db) (hfind : recordFor db sid m y = some r) (hpaid : r.is_paid = true)
    (hD : r.payment_date = some D) (hM : r.payment_mode = some M) :
    ∃ r2, recordFor (toggle_fee_status sid m y t2 (toggle_fee_status sid m y t1 db).1).1 sid m y
        = some r2 ∧
      r2.is_paid = true ∧ r2.payment_date = some t2 ∧ r2.payment_mode = some "Cash" ∧
      (t2 ≠ D → r2.payment_date ≠ r.payment_date) ∧
      (M ≠ "Cash" → r2.payment_mode ≠ r.payment_mode) := by
  obtain ⟨l1, l2, he, hl1, hf, _, _, _, _⟩ := toggle_found sid m y t1 db r hids hfind
  have hkey : feeKeyMatch sid m y r = true := List.find?_some hfind
  have hids1 : idsNodup (toggle_fee_status sid m y t1 db).1 := by
    unfold idsNodup
    rw [hf, List.map_append, List.map_cons, id_toggledRecord]
    unfold idsNodup at hids
    rw [he, List.map_append, List.map_cons] at hids
    exact hids
  have hfind1 : recordFor (toggle_fee_status sid m y t1 db).1 sid m y
      = some (toggledRecord t1 r) := by
    unfold recordFor
    rw [hf]
    exact find?_app_cons _ _ l1 l2 hl1 (by rw [feeKeyMatch_toggledRecord]; exact hkey)
  obtain ⟨g1, g2, ge, gl1, gf, _, _, _, _⟩ :=
    toggle_found sid m y t2 (toggle_fee_status sid m y t1 db).1 (toggledRecord t1 r) hids1 hfind1
  refine ⟨toggledRecord t2 (toggledRecord t1 r), ?_, ?_, ?_, ?_, ?_, ?_⟩
  · unfold recordFor
    rw [gf]
    exact find?_app_cons _ _ g1 g2 gl1
      (by rw [feeKeyMatch_toggledRecord, feeKeyMatch_toggledRecord]; exact hkey)
  · simp [toggledRecord, hpaid]
  · simp [toggledRecord, hpaid]
  · simp [toggledRecord, hpaid]
  · intro hne
    simp [toggledRecord, hpaid, hD]
    exact fun hc => hne hc
  · intro hne
    simp [toggledRecord, hpaid, hM]
    exact fun hc => hne hc.symm

/-- Claim C10 witness: a record paid on 2024-05-05 by UPI, toggled on 2026-01-01
and again on 2026-01-02, ends paid with payment_date 2026-01-02 and
payment_mode Cash, neither of which equals the original metadata. -/
theorem c10_double_toggle_witness :
    ∃ r2, recordFor (toggle_fee_status 1 1 2024 "2026-01-02"
          (toggle_fee_status 1 1 2024 "2026-01-01"
            { emptyDB with fees := [⟨5, 1, 1, 2024, 500, true, some "2024-05-05", some "UPI", none⟩] }).1).1
        1 1 2024 = some r2 ∧
      r2.is_paid = true ∧ r2.payment_date = some "2026-01-02" ∧ r2.payment_mode = some "Cash" ∧
      ("2026-01-02" ≠ "2024-05-05" → r2.payment_date ≠ some "2024-05-05") ∧
      ("UPI" ≠ "Cash" → r2.payment_mode ≠ some "UPI") := by
  have h := c10_double_toggle 1 1 2024 "2026-01-01" "2026-01-02" "2024-05-05" "UPI"
    { emptyDB with fees := [⟨5, 1, 1, 2024, 500, true, some "2024-05-05", some "UPI", none⟩] }
    ⟨5, 1, 1, 2024, 500, true, some "2024-05-05", some "UPI", none⟩
    (by decide) rfl rfl rfl rfl
  simpa using h

end SLM

namespace SLM

theorem monthName_ne_empty {m : Nat} (h1 : 1 ≤ m) (h2 : m ≤ 12) : monthName m ≠ "" := by
  interval_cases m <;> decide

/-- Claim C8: the unpaid summary returns precisely the rendered unpaid records of
the student — a list ordered ascending by (year, month) that is a permutation
of the unpaid rows, each line carrying a real calendar month name — together
with total_due equal to the arithmetic sum of the fee_amount values of all
the unpaid rows.  The hypothesis restricts months to 1..12, which the claim
presupposes (in the source an out-of-range month would raise IndexError
before anything is returned); the operation itself is a pure read by type. -/
theorem c8_unpaid_summary (sid : Nat) (db : DB)
    (hm : ∀ r ∈ unpaidFor sid db, 1 ≤ r.month ∧ r.month ≤ 12) :
    ∃ l, List.Perm l (unpaidFor sid db) ∧ List.Sorted ymLe l ∧
      (∀ r ∈ l, monthName r.month ≠ "") ∧
      (get_unpaid_months_details sid db).1 = l.map renderUnpaidLine ∧
      (get_unpaid_months_details sid db).2
        = ((unpaidFor sid db).map (fun r => r.fee_amount)).sum := by
  refine ⟨List.insertionSort ymLe (unpaidFor sid db),
    List.perm_insertionSort ymLe (unpaidFor sid db),
    List.sorted_insertionSort ymLe (unpaidFor sid db), ?_, rfl, ?_⟩
  · intro r hr
    have hmem : r ∈ unpaidFor sid db :=
      (List.perm_insertionSort ymLe (unpaidFor sid db)).mem_iff.mp hr
    exact monthName_ne_empty (hm r hmem).1 (hm r hmem).2
  · exact List.Perm.sum_eq (List.Perm.map _ (List.perm_insertionSort ymLe _))

/-- Claim C8 witness at the example of the spec: records (January 2024, 500,
unpaid), (February 2024, 500, paid), (March 2024, 450, unpaid) give the two
rendered unpaid lines and total 950. -/
theorem c8_unpaid_summary_witness :
    (get_unpaid_months_details 1
        { emptyDB with fees :=
            [⟨1, 1, 1, 2024, 500, false, none, none, none⟩,
             ⟨2, 1, 2, 2024, 500, true, some "2024-02-10", some "Cash", none⟩,
             ⟨3, 1, 3, 2024, 450, false, none, none, none⟩] }).1
      = ["January 2024 - Rs 500.00", "March 2024 - Rs 450.00"] ∧
    (get_unpaid_months_details 1
        { emptyDB with fees :=
            [⟨1, 1, 1, 2024, 500, false, none, none, none⟩,
             ⟨2, 1, 2, 2024, 500, true, some "2024-02-10", some "Cash", none⟩,
             ⟨3, 1, 3, 2024, 450, false, none, none, none⟩] }).2 = 950 := by
  obtain ⟨l, hperm, hsorted, hnames, hfst, hsnd⟩ := c8_unpaid_summary 1
    { emptyDB with fees :=
        [⟨1, 1, 1, 2024, 500, false, none, none, none⟩,
         ⟨2, 1, 2, 2024, 500, true, some "2024-02-10", some "Cash", none⟩,
         ⟨3, 1, 3, 2024, 450, false, none, none, none⟩] }
    (by decide)
  refine ⟨by decide, ?_⟩
  rw [hsnd]
  norm_num [unpaidFor, emptyDB, List.filter]

/-- Claim C9 counterexample.  The claim asserts that every failing import
attempt leaves the row sets exactly as they were.  Take a populated store,
an archive that parses and restores cleanly (one student, no fees), and a
post-commit filesystem failure (shutil.copytree or rmtree raising after
conn.commit(), src/app.py lines 1997 to 2009, caught by the same except):
the attempt reports failure, yet the stored rows are no longer those of the
original store. -/
theorem c9_restore_atomic_cex :
    (restore_backup
        (Except.ok ⟨[⟨2, "SL20240002", "Ravi", 800, 0, "2024-02-01"⟩], [], []⟩)
        (Except.error "copytree failed")
        { emptyDB with students := [⟨1, "SL20240001", "Asha", 1000, 0, "2024-01-15"⟩] }).2
      = false ∧
    (restore_backup
        (Except.ok ⟨[⟨2, "SL20240002", "Ravi", 800, 0, "2024-02-01"⟩], [], []⟩)
        (Except.error "copytree failed")
        { emptyDB with students := [⟨1, "SL20240001", "Asha", 1000, 0, "2024-01-15"⟩] }).1
      ≠ { emptyDB with students := [⟨1, "SL20240001", "Asha", 1000, 0, "2024-01-15"⟩] } := by
  refine ⟨by decide, by decide⟩

/-- Claim C9, amended: the import is all-or-nothing on the stored row sets up
to the commit.  Every failure before the restore transaction commits — the
archive never parses (missing upload, not a zip, corrupt archive, missing
data.json, unparsable JSON, all of which abort before any DELETE), or any
insert inside the transaction violating a constraint (the transaction never
commits) — is reported and leaves the students, fees, sessions and id
sequences exactly as they were.  A failure in the post-commit filesystem
work (restoring the uploads and logo trees, removing the temporary
directory) is also reported as an error, but by then the row sets have
already been replaced with the archive contents; every reported failure is
of one of these two kinds. -/
theorem c9_restore_atomic (arch : Except String BackupData) (assets : Except String Unit)
    (db : DB) :
    ((restore_backup arch assets db).2 = false →
      (restore_backup arch assets db).1 = db ∨
      ∃ bd db2 e, arch = Except.ok bd ∧ restoreTxn bd = Except.ok db2 ∧
        assets = Except.error e ∧ (restore_backup arch assets db).1 = db2) ∧
    (∀ e, arch = Except.error e → restore_backup arch assets db = (db, false)) ∧
    (∀ bd e, arch = Except.ok bd → restoreTxn bd = Except.error e →
      restore_backup arch assets db = (db, false)) ∧
    (∀ bd db2 e, arch = Except.ok bd → restoreTxn bd = Except.ok db2 →
      assets = Except.error e → restore_backup arch assets db = (db2, false)) := by
  refine ⟨?_, ?_, ?_, ?_⟩
  · intro hfail
    cases arch with
    | error e => left; rfl
    | ok bd =>
      cases h : restoreTxn bd with
      | error e => left; simp [restore_backup, h]
      | ok db2 =>
        cases ha : assets with
        | error e =>
          right
          exact ⟨bd, db2, e, rfl, h, rfl, by simp [restore_backup, h]⟩
        | ok u =>
          rw [ha] at hfail
          simp [restore_backup, h] at hfail
  · intro e he
    subst he
    rfl
  · intro bd e ha hr
    subst ha
    simp [restore_backup, hr]
  · intro bd db2 e ha hr hassets
    subst ha
    subst hassets
    simp [restore_backup, hr]

/-- Claim C9 witness, exercising the pre-commit transactional branch at
concrete inputs: a parsed archive whose fee row references a student absent
from the archive fails the foreign key inside the restore transaction, and
the populated store is returned exactly unchanged with the failure
reported. -/
theorem c9_restore_atomic_witness :
    restore_backup
        (Except.ok ⟨[], [⟨1, 9, 1, 2024, 500, false, none, none, none⟩], []⟩)
        (Except.ok ())
        { emptyDB with students := [⟨1, "SL20240001", "Asha", 1000, 0, "2024-01-15"⟩],
                       fees := [⟨1, 1, 1, 2024, 1000, false, none, none, none⟩] }
      = ({ emptyDB with students := [⟨1, "SL20240001", "Asha", 1000, 0, "2024-01-15"⟩],
                        fees := [⟨1, 1, 1, 2024, 1000, false, none, none, none⟩] }, false) :=
  (c9_restore_atomic
      (Except.ok ⟨[], [⟨1, 9, 1, 2024, 500, false, none, none, none⟩], []⟩)
      (Except.ok ())
      { emptyDB with students := [⟨1, "SL20240001", "Asha", 1000, 0, "2024-01-15"⟩],
                     fees := [⟨1, 1, 1, 2024, 1000, false, none, none, none⟩] }).2.2.1
    ⟨[], [⟨1, 9, 1, 2024, 500, false, none, none, none⟩], []⟩ "unknown student" rfl rfl

end SLM

namespace SLM

theorem uniq_insertMissing (sid : Nat) (net : Rat) (L : List (Nat × Nat)) :
    ∀ db, Uniq db → Uniq (insertMissing sid net L db) := by
  induction L with
  | nil => intro db h; exact h
  | cons p rest ih =>
    intro db h
    obtain ⟨a, b⟩ := p
    simp only [insertMissing]
    by_cases hex : feeExists db sid a b = true
    · rw [if_pos hex]
      exact ih db h
    · rw [if_neg hex]
      refine ih _ ?_
      unfold Uniq at h ⊢
      unfold insertFee
      simp only []
      rw [List.pairwise_append]
      refine ⟨h, List.pairwise_singleton _ _, ?_⟩
      intro x hx nr hnr
      rw [List.mem_singleton] at hnr
      subst hnr
      intro hc
      apply hex
      unfold feeExists
      refine List.any_eq_true.mpr ⟨x, hx, ?_⟩
      simp only [feeKeyMatch, Bool.and_eq_true, beq_iff_eq]
      exact ⟨⟨hc.1, hc.2.1⟩, hc.2.2⟩

theorem uniq_ensure (sid : Nat) (s : String) (fpm disc : Rat) (asOf : Date) (db : DB)
    (h : Uniq db) : Uniq (ensure_fee_records sid s fpm disc asOf db) := by
  cases hp : parseDate s with
  | none => rw [ensure_noparse hp]; exact h
  | some ad => rw [ensure_eq_insertMissing hp]; exact uniq_insertMissing _ _ _ _ h

theorem pairwise_keyDiff_map {l : List FeeRecord} (f : FeeRecord → FeeRecord)
    (hf : ∀ r, (f r).student_id = r.student_id ∧ (f r).month = r.month ∧ (f r).year = r.year)
    (h : l.Pairwise keyDiff) : (l.map f).Pairwise keyDiff := by
  rw [List.pairwise_map]
  refine h.imp (fun hab => ?_)
  unfold keyDiff at *
  intro hc
  apply hab
  rwa [(hf _).1, (hf _).2.1, (hf _).2.2, (hf _).1, (hf _).2.1, (hf _).2.2] at hc

theorem uniq_toggle (sid m y : Nat) (today : String) (db : DB) (h : Uniq db) :
    Uniq (toggle_fee_status sid m y today db).1 := by
  unfold toggle_fee_status
  cases hf : recordFor db sid m y with
  | none => exact h
  | some r =>
    unfold Uniq at h ⊢
    simp only []
    refine pairwise_keyDiff_map _ (fun q => ?_) h
    by_cases hq : q.id == r.id
    · simp [hq, toggledRecord]
    · simp [hq]

theorem uniq_addFee (sid m y : Nat) (amt : Rat) (paid : Bool) (pd pm rem : String) (db : DB)
    (h : Uniq db) : Uniq (add_fee_record sid m y amt paid pd pm rem db) := by
  unfold add_fee_record
  cases hf : recordFor db sid m y with
  | some r =>
    unfold Uniq at h ⊢
    simp only []
    refine pairwise_keyDiff_map _ (fun q => ?_) h
    by_cases hq : q.id == r.id
    · simp [hq]
    · simp [hq]
  | none =>
    unfold Uniq at h ⊢
    simp only []
    rw [List.pairwise_append]
    refine ⟨h, List.pairwise_singleton _ _, ?_⟩
    intro x hx nr hnr
    rw [List.mem_singleton] at hnr
    subst hnr
    intro hc
    have hnone := List.find?_eq_none.mp hf x hx
    apply hnone
    simp only [feeKeyMatch, Bool.and_eq_true, beq_iff_eq]
    exact ⟨⟨hc.1, hc.2.1⟩, hc.2.2⟩

theorem uniq_delFee (fid : Nat) (db : DB) (h : Uniq db) : Uniq (delete_fee_record fid db) :=
  List.Pairwise.sublist (List.filter_sublist _) h

theorem uniq_delStudent (sid : Nat) (db : DB) (h : Uniq db) : Uniq (delete_student sid db) :=
  List.Pairwise.sublist (List.filter_sublist _) h

theorem pairwise_insertFeesTxn (studs : List Student) :
    ∀ (L acc : List FeeRecord) (out : List FeeRecord),
      insertFeesTxn L studs acc = .ok out → acc.Pairwise keyDiff → out.Pairwise keyDiff := by
  intro L
  induction L with
  | nil =>
    intro acc out h hp
    cases h
    exact hp
  | cons f rest ih =>
    intro acc out h hp
    unfold insertFeesTxn at h
    by_cases h1 : acc.any (fun g => g.id == f.id) = true
    · rw [if_pos h1] at h; cases h
    · rw [if_neg h1] at h
      by_cases h2 : acc.any (feeKeyMatch f.student_id f.month f.year) = true
      · rw [if_pos h2] at h; cases h
      · rw [if_neg h2] at h
        by_cases h3 : (!studs.any fun s => s.id == f.student_id) = true
        · rw [if_pos h3] at h; cases h
        · rw [if_neg h3] at h
          refine ih _ _ h ?_
          rw [List.pairwise_append]
          refine ⟨hp, List.pairwise_singleton _ _, ?_⟩
          intro x hx nr hnr
          rw [List.mem_singleton] at hnr
          subst hnr
          intro hc
          apply h2
          refine List.any_eq_true.mpr ⟨x, hx, ?_⟩
          simp only [feeKeyMatch, Bool.and_eq_true, beq_iff_eq]
          exact ⟨⟨hc.1, hc.2.1⟩, hc.2.2⟩

theorem uniq_restore (arch : Except String BackupData) (assets : Except String Unit)
    (db : DB) (h : Uniq db) : Uniq (restore_backup arch assets db).1 := by
  cases arch with
  | error e => exact h
  | ok bd =>
    cases hr : restoreTxn bd with
    | error e => simpa [restore_backup, hr] using h
    | ok db2 =>
      have hres : (restore_backup (Except.ok bd) assets db).1 = db2 := by
        cases assets with
        | error e => simp [restore_backup, hr]
        | ok u => simp [restore_backup, hr]
      rw [hres]
      unfold restoreTxn at hr
      split at hr
      · cases hr
      · rename_i studs h1
        split at hr
        · cases hr
        · rename_i fees h2
          split at hr
          · cases hr
          · rename_i sess h3
            cases hr
            exact pairwise_insertFeesTxn studs bd.fees [] fees h2 List.Pairwise.nil

/-- Claim C4: in every store reachable from the initialized (empty) database
through the modelled operations — Reconcile, ToggleStatus, the
add_fee_record upsert, fee-record deletion, student deletion with cascade,
and backup restore — no two fee records of the same student share a
(month, year) pair.  Reconcile and the upsert check before inserting, the
updates never touch key columns, deletions only remove rows, and the restore
transaction enforces the schema UNIQUE constraint on every insert. -/
theorem c4_uniqueness (db : DB) (h : Reachable db) : Uniq db := by
  induction h with
  | init => exact List.Pairwise.nil
  | ensure sid s fpm disc asOf hdb ih => exact uniq_ensure sid s fpm disc asOf _ ih
  | toggle sid m y today hdb ih => exact uniq_toggle sid m y today _ ih
  | addFee sid m y amt paid pd pm rem hdb ih => exact uniq_addFee sid m y amt paid pd pm rem _ ih
  | delFee fid hdb ih => exact uniq_delFee fid _ ih
  | delStudent sid hdb ih => exact uniq_delStudent sid _ ih
  | restore arch assets hdb ih => exact uniq_restore arch assets _ ih

/-- Claim C4 witness: a store reached by registering fee months for student 1 up to
April 2024 and then toggling January satisfies the uniqueness invariant. -/
theorem c4_uniqueness_witness :
    Uniq (toggle_fee_status 1 1 2024 "2024-04-10"
        (ensure_fee_records 1 "2024-01-15" 1000 100 ⟨2024, 4, 10⟩ emptyDB)).1 :=
  c4_uniqueness _ (Reachable.toggle 1 1 2024 "2024-04-10"
    (Reachable.ensure 1 "2024-01-15" 1000 100 ⟨2024, 4, 10⟩ Reachable.init))

end SLM
